import Mathlib

/-!
Shallow embedding of the step-definition resolution core of `pytest_bdd/steps.py`
(pytest-bdd-ng).  Pure Python functions become Lean functions; the Matcher's
mutable `step_type_context` attribute becomes explicit state passing; Python
`None` becomes `Option.none`; the `MatchNotFoundError` exception becomes a
distinguished outcome constructor.  Python object identity (relevant because
`StepHandler.Definition` is declared with `attrs(eq=False)`, so `set` membership
is identity-based) is modelled by an explicit object-id field `oid`.
-/

/-- Modelled from the spec: the closed enumeration `StepType` lives in
`pytest_bdd/const.py`, which is not part of the sources under review; §3 of the
specification lists its six members. -/
inductive StepType where
  | context
  | action
  | outcome
  | conjunction
  | unknown
  | unspecified
deriving DecidableEq, Repr, Fintype

/-- Modelled from the spec: the external parser collaborator (§6) exposes
`is_matching(text) -> bool` and `parse_arguments(text) -> mapping or absent`.
Argument values are modelled as strings. -/
structure StepParser where
  is_matching : String → Bool
  parse_arguments : String → Option (List (String × String))

/-- Modelled from the spec: a `Step` record (from `pytest_bdd/model.py`, not
under review) carries a declared category and text; `steps.py` reads
`step.type`, `step.text` (matching) and `step.name` (argument extraction). -/
structure Step where
  type : StepType
  text : String
  name : String

/-- Modelled from the spec: the read-only configuration view consumed by the
liberal tier — `config.option.liberal_steps` is the command-line toggle
(tri-state, default unset) and `config.getini "liberal_steps"` the persisted
boolean option (§6). -/
structure Config where
  option_liberal_steps : Option Bool
  ini_liberal_steps : Bool

/-- Embedding of `StepHandler.Definition` (`steps.py` lines 305-314):
`attrs(auto_attribs=True, eq=False)` record.  `oid` is not a Python attribute:
it models the object's identity, which is what `eq=False` makes `==`/`hash`
(and hence `set` deduplication) use.  `params_fixtures_mapping` is opaque to
the core and modelled as a `Bool`; handler functions are modelled by a numeric
tag. -/
structure Definition where
  oid : Nat
  func : Nat
  type_ : Option StepType
  parser : StepParser
  converters : List (String × (String → String))
  params_fixtures_mapping : Bool
  param_defaults : List (String × String)
  target_fixtures : List String
  liberal : Option Bool

/-- Embedding of `StepHandler.Registry` (`steps.py` lines 323-392): a container
of Definitions plus an optional parent registry.  The Python `set` storage is
modelled as a list in iteration order. -/
inductive Registry where
  | mk : List Definition → Option Registry → Registry

/-- Field accessor for the stored definitions of a registry. -/
def Registry.registry : Registry → List Definition
  | .mk r _ => r

/-- Field accessor for the parent of a registry. -/
def Registry.parent : Registry → Option Registry
  | .mk _ p => p

/-- Embedding of `registry.add(step_definition)` on the Python `set` storage
(`steps.py` line 338): because `Definition` has `eq=False`, `set` membership
compares object identity, i.e. `oid`. -/
def Registry.add : Registry → Definition → Registry
  | .mk r p, d => if r.any (fun x => x.oid == d.oid) then .mk r p else .mk (r ++ [d]) p

/-- Embedding of `StepHandler.Matcher.strict_matcher` (`steps.py` lines
260-263). -/
def strict_matcher (ctx : Option StepType) (s : Step) (d : Definition) : Bool :=
  decide (d.type_ = ctx) && d.parser.is_matching s.text

/-- Embedding of `StepHandler.Matcher.unspecified_matcher` (`steps.py` lines
265-268). -/
def unspecified_matcher (ctx : Option StepType) (s : Step) (d : Definition) : Bool :=
  (decide (ctx = some StepType.unspecified) || decide (d.type_ = some StepType.unspecified))
    && d.parser.is_matching s.text

/-- Embedding of the flag-resolution prelude of
`StepHandler.Matcher.liberal_matcher` (`steps.py` lines 271-277): the
Definition's own flag when set, else the command-line toggle when set, else the
ini option. -/
def is_step_definition_liberal (cfg : Config) (d : Definition) : Bool :=
  match d.liberal with
  | some b => b
  | none =>
    match cfg.option_liberal_steps with
    | some b => b
    | none => cfg.ini_liberal_steps

/-- Embedding of `StepHandler.Matcher.liberal_matcher` (`steps.py` lines
270-286). -/
def liberal_matcher (cfg : Config) (ctx : Option StepType) (s : Step) (d : Definition) : Bool :=
  !(unspecified_matcher ctx s d)
    && is_step_definition_liberal cfg d
    && decide (d.type_ ≠ ctx)
    && d.parser.is_matching s.text

/-- Embedding of the inner loops of
`StepHandler.Matcher.find_step_definition_matches` (`steps.py` lines 293-300)
over one registry's definitions: each matcher tier in order yields the
definitions it matches; once a tier has yielded anything the loop breaks. -/
def run_matchers (defs : List Definition) : List (Definition → Bool) → List Definition
  | [] => []
  | m :: ms =>
    let hits := defs.filter m
    if hits.isEmpty then run_matchers defs ms else hits

/-- Embedding of `StepHandler.Matcher.find_step_definition_matches`
(`steps.py` lines 288-303): if no tier matches at this registry, recurse into
the parent chain (`suppress(AttributeError)` terminates the walk at a `None`
parent). -/
def find_step_definition_matches (ms : List (Definition → Bool)) : Registry → List Definition
  | .mk defs parent =>
    let hits := run_matchers defs ms
    if hits.isEmpty then
      match parent with
      | some p => find_step_definition_matches ms p
      | none => []
    else hits

/-- Embedding of the context-propagation prologue of
`StepHandler.Matcher.__call__` (`steps.py` lines 240-246). -/
def propagate_context (ctx : Option StepType) (t : StepType) : Option StepType :=
  let c := if (t = StepType.conjunction ∨ t = StepType.unknown) ∧ ctx ≠ none
           then ctx else some t
  if c = some StepType.conjunction then some StepType.unknown else c

/-- Outcome of one Matcher invocation: either the `MatchNotFoundError`
exception or the returned definition, with a flag recording whether the
`PytestBDDStepDefinitionWarning` about alternative definitions was raised. -/
inductive CallOutcome where
  | matchNotFound
  | found (d : Definition) (ambiguityWarning : Bool)

/-- Embedding of the matcher tuple `(self.strict_matcher,
self.unspecified_matcher, self.liberal_matcher)` passed by
`StepHandler.Matcher.__call__` (`steps.py` line 250). -/
def matchers_of (cfg : Config) (ctx : Option StepType) (s : Step) : List (Definition → Bool) :=
  [strict_matcher ctx s, unspecified_matcher ctx s, liberal_matcher cfg ctx s]

/-- Embedding of `StepHandler.Matcher.__call__` (`steps.py` lines 226-258).
The Matcher's mutable `step_type_context` is passed and returned explicitly;
the registry is threaded through unchanged because the body only iterates it. -/
def Matcher.call (cfg : Config) (ctx : Option StepType) (s : Step) (reg : Registry) :
    Option StepType × Registry × CallOutcome :=
  let ctx' := propagate_context ctx s.type
  let step_definitions := find_step_definition_matches (matchers_of cfg ctx' s) reg
  (ctx', reg,
    match step_definitions with
    | [] => CallOutcome.matchNotFound
    | d :: rest => CallOutcome.found d (!rest.isEmpty))

/-- Lookup in a Python-dict model (association list in insertion order): the
value stored under a key, or `none`. -/
def dict_get (m : List (String × String)) (k : String) : Option String :=
  (m.find? (fun p => p.1 == k)).map Prod.snd

/-- Embedding of `self.converters.get(arg, lambda _: _)` (`steps.py` line
320): the converter registered under `arg`, identity if none. -/
def converters_get (convs : List (String × (String → String))) (arg : String) : String → String :=
  match convs.find? (fun p => p.1 == arg) with
  | some p => p.2
  | none => fun v => v

/-- Python-dict update `m[k] = v`: replace the value in place if the key is
present, else append the new binding. -/
def dict_insert (m : List (String × String)) (k v : String) : List (String × String) :=
  if m.any (fun p => p.1 == k) then
    m.map (fun p => if p.1 == k then (p.1, v) else p)
  else m ++ [(k, v)]

/-- Python-dict merge `«a merged with b»` where `b`'s bindings win: update `a`
with every binding of `b` in order. -/
def dict_merge (a b : List (String × String)) : List (String × String) :=
  b.foldl (fun acc kv => dict_insert acc kv.1 kv.2) a

/-- Embedding of `StepHandler.Definition.get_parameters` (`steps.py` lines
316-321): parsed arguments (empty when the parser reports absent), each value
passed through its converter, merged over the default arguments. -/
def Definition.get_parameters (d : Definition) (s : Step) : List (String × String) :=
  let parsed_arguments := (d.parser.parse_arguments s.name).getD []
  dict_merge d.param_defaults
    (parsed_arguments.map (fun kv => (kv.1, converters_get d.converters kv.1 kv.2)))

/-- One insertion step of `OrderedSet`: append the element unless it is
already present. -/
def os_insert (acc : List String) (x : String) : List String :=
  if acc.contains x then acc else acc ++ [x]

/-- Embedding of `OrderedSet` construction followed by `list(...)`
(`steps.py` lines 423-430): deduplicate keeping the first occurrence,
preserving order. -/
def ordered_set (l : List String) : List String :=
  l.foldl os_insert []

/-- Embedding of the `target_fixtures` computation of
`StepHandler.decorator_builder` (`steps.py` lines 423-430): the single name
(when given) followed by the list (when given), deduplicated order-preserving. -/
def effective_target_fixtures (target_fixture : Option String)
    (target_fixtures : Option (List String)) : List String :=
  ordered_set
    ((match target_fixture with | some x => [x] | none => [])
      ++ (match target_fixtures with | some l => l | none => []))

/-- Number of `PytestBDDStepDefinitionWarning`s emitted by one
`StepHandler.decorator_builder` call about conflicting target-fixture
arguments (`steps.py` lines 421-422): one exactly when both forms are given. -/
def builder_warning_count (target_fixture : Option String)
    (target_fixtures : Option (List String)) : Nat :=
  if target_fixture.isSome && target_fixtures.isSome then 1 else 0

/-- Embedding of the `Definition` constructed by the decorator returned from
`StepHandler.decorator_builder` (`steps.py` lines 419-448): `converters` and
`param_defaults` default to empty, `target_fixtures` is the merged list.  The
fresh `oid` models the identity of the newly allocated Python object. -/
def decorator_builder_definition (oid : Nat) (step_type : Option StepType)
    (parser : StepParser) (converters : Option (List (String × (String → String))))
    (target_fixture : Option String) (target_fixtures : Option (List String))
    (params_fixtures_mapping : Bool) (param_defaults : Option (List (String × String)))
    (liberal : Option Bool) (func : Nat) : Definition :=
  { oid := oid
    func := func
    type_ := step_type
    parser := parser
    converters := converters.getD []
    params_fixtures_mapping := params_fixtures_mapping
    param_defaults := param_defaults.getD []
    target_fixtures := effective_target_fixtures target_fixture target_fixtures
    liberal := liberal }

/-- Embedding of the step-type argument the category-agnostic `step` decorator
passes to `decorator_builder` (`steps.py` line 199):
`StepType.UNSPECIFIED if liberal else StepType.UNKNOWN`, where `liberal` is
truthy exactly when it is `True`. -/
def step_decorator_type (liberal : Option Bool) : StepType :=
  match liberal with
  | some true => StepType.unspecified
  | _ => StepType.unknown

/-- Embedding of the `Definition` created by the `step` decorator
(`steps.py` lines 176-207) with only a pattern and an optional liberal flag
supplied. -/
def step_decorator_definition (oid : Nat) (parser : StepParser)
    (liberal : Option Bool) (func : Nat) : Definition :=
  decorator_builder_definition oid (some (step_decorator_type liberal)) parser
    none none none true none liberal func

/-- Concrete parser matching exactly the text `foo` and reporting no
arguments, used for worked instances. -/
def parserFoo : StepParser :=
  { is_matching := fun t => t == "foo", parse_arguments := fun _ => none }

/-- Concrete parser matching exactly the text `baz` and reporting two parsed
arguments, used for argument-extraction instances. -/
def parserArgs : StepParser :=
  { is_matching := fun t => t == "baz",
    parse_arguments := fun t => if t == "baz" then some [("a", "1"), ("b", "2")] else none }

/-- Configuration with the command-line toggle unset and the ini option at its
documented default `false`. -/
def cfgDefault : Config := { option_liberal_steps := none, ini_liberal_steps := false }

/-- Configuration with the command-line toggle unset and the ini option set to
`true` (global liberal default on). -/
def cfgIniTrue : Config := { option_liberal_steps := none, ini_liberal_steps := true }

/-- Step record with the given declared category and text (`name` and `text`
coincide, as for plain scenario steps). -/
def stepOf (t : StepType) (txt : String) : Step := { type := t, text := txt, name := txt }

/-- Registry holding no definitions and having no parent. -/
def regEmpty : Registry := Registry.mk [] none

/-- Definition with the given identity, declared category, parser and liberal
flag and all remaining attributes at their builder defaults. -/
def simpleDef (oid : Nat) (t : Option StepType) (p : StepParser) (lib : Option Bool) :
    Definition :=
  { oid := oid, func := oid, type_ := t, parser := p, converters := [],
    params_fixtures_mapping := true, param_defaults := [], target_fixtures := [],
    liberal := lib }

/-- Liberal `ACTION` definition over pattern `foo` (spec §8, end-to-end
scenario 1). -/
def defActionFoo : Definition := simpleDef 0 (some StepType.action) parserFoo (some true)

/-- Registry holding only `defActionFoo`. -/
def regFoo : Registry := Registry.mk [defActionFoo] none

/-- Step with declared category `CONTEXT` and text `foo`. -/
def stepFooCtx : Step := stepOf StepType.context "foo"

/-- `CONTEXT` definition over pattern `foo`. -/
def dCtx : Definition := simpleDef 1 (some StepType.context) parserFoo none

/-- `UNSPECIFIED` definition over pattern `foo`. -/
def dUnspec : Definition := simpleDef 2 (some StepType.unspecified) parserFoo none

/-- Liberal `ACTION` definition over pattern `foo`. -/
def dLib : Definition := simpleDef 3 (some StepType.action) parserFoo (some true)

/-- `CONTEXT` definition over pattern `foo` held in a parent registry. -/
def dParent : Definition := simpleDef 4 (some StepType.context) parserFoo none

/-- Non-liberal `ACTION` definition over pattern `foo`: matches nothing under
context `CONTEXT` with the default configuration. -/
def dNoMatch : Definition := simpleDef 5 (some StepType.action) parserFoo none

/-- Second `CONTEXT` definition over pattern `foo`, distinct from `dCtx`. -/
def dCtx2 : Definition := simpleDef 6 (some StepType.context) parserFoo none

/-- Parent registry holding only `dParent`. -/
def regParent : Registry := Registry.mk [dParent] none

/-- Registry with two definitions that both strictly match `stepFooCtx` under
context `CONTEXT`. -/
def regTwo : Registry := Registry.mk [dCtx, dCtx2] none

/-- Definition with converters, default arguments and an argument-reporting
parser, for the `get_parameters` instances. -/
def defConv : Definition :=
  { oid := 7, func := 7, type_ := some StepType.context, parser := parserArgs,
    converters := [("a", fun v => v ++ "!")],
    params_fixtures_mapping := true,
    param_defaults := [("b", "0"), ("c", "3")],
    target_fixtures := [], liberal := none }

/-- Step with declared category `CONTEXT` and text `baz`. -/
def stepBaz : Step := stepOf StepType.context "baz"

lemma run_matchers_cons_eq (defs : List Definition) (m : Definition → Bool)
    (ms : List (Definition → Bool)) :
    run_matchers defs (m :: ms)
      = if (defs.filter m).isEmpty then run_matchers defs ms else defs.filter m := rfl

lemma find_matches_mk_eq (ms : List (Definition → Bool)) (defs : List Definition)
    (parent : Option Registry) :
    find_step_definition_matches ms (Registry.mk defs parent)
      = if (run_matchers defs ms).isEmpty then
          (match parent with
           | some p => find_step_definition_matches ms p
           | none => [])
        else run_matchers defs ms := by
  conv_lhs => unfold find_step_definition_matches

lemma run_matchers_cons_pos {defs : List Definition} {m : Definition → Bool}
    (ms : List (Definition → Bool)) (h : defs.filter m ≠ []) :
    run_matchers defs (m :: ms) = defs.filter m := by
  rw [run_matchers_cons_eq, if_neg (by simpa [List.isEmpty_iff] using h)]

lemma run_matchers_cons_nil {defs : List Definition} {m : Definition → Bool}
    (ms : List (Definition → Bool)) (h : defs.filter m = []) :
    run_matchers defs (m :: ms) = run_matchers defs ms := by
  rw [run_matchers_cons_eq, if_pos (by simpa [List.isEmpty_iff] using h)]

lemma find_matches_pos {defs : List Definition} {ms : List (Definition → Bool)}
    (parent : Option Registry) (h : run_matchers defs ms ≠ []) :
    find_step_definition_matches ms (Registry.mk defs parent) = run_matchers defs ms := by
  rw [find_matches_mk_eq, if_neg (by simpa [List.isEmpty_iff] using h)]

lemma find_matches_nil {defs : List Definition} {ms : List (Definition → Bool)}
    (parent : Option Registry) (h : run_matchers defs ms = []) :
    find_step_definition_matches ms (Registry.mk defs parent)
      = match parent with
        | some p => find_step_definition_matches ms p
        | none => [] := by
  rw [find_matches_mk_eq, if_pos (by simpa [List.isEmpty_iff] using h)]

lemma filter_ne_nil_of_exists {defs : List Definition} {m : Definition → Bool}
    (h : ∃ d ∈ defs, m d = true) : defs.filter m ≠ [] := by
  intro hnil
  rcases h with ⟨d, hd, hm⟩
  exact absurd hm (by simpa using List.filter_eq_nil_iff.mp hnil d hd)

lemma filter_eq_nil_of_forall {defs : List Definition} {m : Definition → Bool}
    (h : ∀ d ∈ defs, m d = false) : defs.filter m = [] :=
  List.filter_eq_nil_iff.mpr (fun d hd => by simp [h d hd])

lemma Matcher.call_fst (cfg : Config) (ctx : Option StepType) (s : Step) (reg : Registry) :
    (Matcher.call cfg ctx s reg).1 = propagate_context ctx s.type := rfl

lemma Matcher.call_reg (cfg : Config) (ctx : Option StepType) (s : Step) (reg : Registry) :
    (Matcher.call cfg ctx s reg).2.1 = reg := rfl

lemma is_lib_iff (cfg : Config) (d : Definition) :
    is_step_definition_liberal cfg d = true ↔
      (d.liberal = some true
        ∨ (d.liberal = none
            ∧ (cfg.option_liberal_steps = some true
               ∨ (cfg.option_liberal_steps = none ∧ cfg.ini_liberal_steps = true)))) := by
  unfold is_step_definition_liberal
  rcases hd : d.liberal with _ | b
  · rcases hc : cfg.option_liberal_steps with _ | b'
    · simp [hd, hc]
    · cases b' <;> simp [hd, hc]
  · cases b <;> simp [hd]

lemma dict_get_cons (k₀ v₀ : String) (m : List (String × String)) (k : String) :
    dict_get ((k₀, v₀) :: m) k = if k₀ = k then some v₀ else dict_get m k := by
  by_cases h : k₀ = k <;> simp [dict_get, List.find?_cons, h]

lemma dict_get_eq_none {m : List (String × String)} {k : String}
    (h : ∀ p ∈ m, p.1 ≠ k) : dict_get m k = none := by
  unfold dict_get
  rw [List.find?_eq_none.mpr (fun p hp => by simpa using h p hp)]
  rfl

lemma dict_get_append (m₁ m₂ : List (String × String)) (k : String) :
    dict_get (m₁ ++ m₂) k
      = match dict_get m₁ k with
        | some v => some v
        | none => dict_get m₂ k := by
  induction m₁ with
  | nil => simp [dict_get]
  | cons p m ih =>
    obtain ⟨a, b⟩ := p
    by_cases h : a = k <;> simp [dict_get_cons, h, ih]

lemma dict_get_map_update_ne {k k' : String} (v : String) (h : k' ≠ k)
    (m : List (String × String)) :
    dict_get (m.map (fun p => if p.1 == k then (p.1, v) else p)) k' = dict_get m k' := by
  induction m with
  | nil => rfl
  | cons p m ih =>
    obtain ⟨a, b⟩ := p
    rw [List.map_cons]
    by_cases hak : a = k
    · have h1 : (if (a == k) = true then (a, v) else (a, b)) = (a, v) := by simp [hak]
      have hkk' : ¬ a = k' := fun hh => h (hh.symm.trans hak)
      rw [h1, dict_get_cons, dict_get_cons, if_neg hkk', if_neg hkk', ih]
    · have h1 : (if (a == k) = true then (a, v) else (a, b)) = (a, b) := by simp [hak]
      rw [h1, dict_get_cons, dict_get_cons]
      by_cases hak' : a = k'
      · rw [if_pos hak', if_pos hak']
      · rw [if_neg hak', if_neg hak', ih]

lemma dict_get_map_update_self (k v : String) (m : List (String × String))
    (hex : ∃ p ∈ m, p.1 = k) :
    dict_get (m.map (fun p => if p.1 == k then (p.1, v) else p)) k = some v := by
  induction m with
  | nil =>
    rcases hex with ⟨p, hp, -⟩
    cases hp
  | cons q m ih =>
    rcases hex with ⟨p, hp, hpk⟩
    obtain ⟨a, b⟩ := q
    rw [List.map_cons]
    by_cases hak : a = k
    · have h1 : (if (a == k) = true then (a, v) else (a, b)) = (a, v) := by simp [hak]
      rw [h1, dict_get_cons, if_pos hak]
    · have h1 : (if (a == k) = true then (a, v) else (a, b)) = (a, b) := by simp [hak]
      rw [h1, dict_get_cons, if_neg hak]
      apply ih
      rcases List.mem_cons.mp hp with hq | hq
      · refine absurd ?_ hak
        rw [hq] at hpk
        exact hpk
      · exact ⟨p, hq, hpk⟩

lemma dict_get_insert (m : List (String × String)) (k v k' : String) :
    dict_get (dict_insert m k v) k' = if k' = k then some v else dict_get m k' := by
  unfold dict_insert
  by_cases hany : (m.any fun p => p.1 == k) = true
  · rw [if_pos hany]
    by_cases h : k' = k
    · subst h
      rcases List.any_eq_true.mp hany with ⟨p, hp, hpk⟩
      rw [if_pos rfl]
      exact dict_get_map_update_self k' v m ⟨p, hp, by simpa using hpk⟩
    · rw [if_neg h]
      exact dict_get_map_update_ne v h m
  · rw [if_neg hany]
    have hanyf : (m.any fun p => p.1 == k) = false := by
      cases hb : (m.any fun p => p.1 == k) with
      | false => rfl
      | true => exact absurd hb hany
    have hall : ∀ p ∈ m, p.1 ≠ k := by
      intro p hp
      simpa using List.any_eq_false.mp hanyf p hp
    rw [dict_get_append]
    by_cases h : k' = k
    · subst h
      rw [dict_get_eq_none hall]
      simp [dict_get_cons]
    · rw [if_neg h]
      cases hm : dict_get m k' with
      | some w => rfl
      | none =>
        rw [dict_get_cons, if_neg (fun hh : k = k' => h hh.symm)]
        rfl

lemma dict_get_merge (a b : List (String × String)) (hb : (b.map Prod.fst).Nodup) (k : String) :
    dict_get (dict_merge a b) k
      = match dict_get b k with
        | some v => some v
        | none => dict_get a k := by
  induction b generalizing a with
  | nil => simp [dict_merge, dict_get]
  | cons q b ih =>
    obtain ⟨k₀, v₀⟩ := q
    have hk₀ : k₀ ∉ b.map Prod.fst := by
      have := hb
      rw [List.map_cons, List.nodup_cons] at this
      exact this.1
    have hbn : (b.map Prod.fst).Nodup := by
      have := hb
      rw [List.map_cons, List.nodup_cons] at this
      exact this.2
    have hmerge : dict_merge a ((k₀, v₀) :: b) = dict_merge (dict_insert a k₀ v₀) b := rfl
    rw [hmerge, ih (dict_insert a k₀ v₀) hbn, dict_get_cons]
    by_cases h : k₀ = k
    · subst h
      have hnone : dict_get b k₀ = none :=
        dict_get_eq_none (fun p hp hpk => hk₀ (hpk ▸ List.mem_map_of_mem Prod.fst hp))
      rw [hnone, if_pos rfl]
      simp [dict_get_insert]
    · rw [if_neg h]
      cases hm : dict_get b k with
      | some w => rfl
      | none =>
        have hins : dict_get (dict_insert a k₀ v₀) k = dict_get a k := by
          rw [dict_get_insert, if_neg (fun hh : k = k₀ => h hh.symm)]
        rw [hins]

lemma dict_get_map_conv (f : String → String → String) (m : List (String × String)) (k : String) :
    dict_get (m.map (fun kv => (kv.1, f kv.1 kv.2))) k = (dict_get m k).map (f k) := by
  induction m with
  | nil => rfl
  | cons q m ih =>
    obtain ⟨a, b⟩ := q
    rw [List.map_cons, dict_get_cons, dict_get_cons]
    by_cases h : a = k
    · subst h
      rw [if_pos rfl, if_pos rfl]
      rfl
    · rw [if_neg h, if_neg h, ih]

lemma os_fold_nodup (l : List String) :
    ∀ acc : List String, acc.Nodup → (l.foldl os_insert acc).Nodup := by
  induction l with
  | nil => intro acc h; simpa using h
  | cons x l ih =>
    intro acc h
    rw [List.foldl_cons]
    apply ih
    unfold os_insert
    by_cases hc : acc.contains x = true
    · rwa [if_pos hc]
    · rw [if_neg hc]
      have hx : x ∉ acc := by
        intro hmem
        exact hc (by simpa using hmem)
      exact List.nodup_append.mpr ⟨h, List.nodup_singleton x,
        fun a ha hb => hx ((List.mem_singleton.mp hb) ▸ ha)⟩

lemma os_fold_mem (l : List String) :
    ∀ (acc : List String) (y : String), y ∈ l.foldl os_insert acc ↔ y ∈ acc ∨ y ∈ l := by
  induction l with
  | nil => intro acc y; simp
  | cons x l ih =>
    intro acc y
    rw [List.foldl_cons, ih]
    unfold os_insert
    by_cases hc : acc.contains x = true
    · rw [if_pos hc]
      have hx : x ∈ acc := by simpa using hc
      constructor
      · rintro (h | h)
        · exact Or.inl h
        · exact Or.inr (List.mem_cons_of_mem _ h)
      · rintro (h | h)
        · exact Or.inl h
        · rcases List.mem_cons.mp h with rfl | h
          · exact Or.inl hx
          · exact Or.inr h
    · rw [if_neg hc]
      simp only [List.mem_append, List.mem_singleton, List.mem_cons]
      tauto

lemma os_fold_split (l : List String) :
    ∀ acc : List String, ∃ t, l.foldl os_insert acc = acc ++ t ∧ t.Sublist l := by
  induction l with
  | nil => intro acc; exact ⟨[], by simp, List.nil_sublist _⟩
  | cons x l ih =>
    intro acc
    rw [List.foldl_cons]
    by_cases hc : acc.contains x = true
    · have hxa : os_insert acc x = acc := by
        unfold os_insert
        rw [if_pos hc]
      rw [hxa]
      obtain ⟨t, ht, hs⟩ := ih acc
      exact ⟨t, ht, hs.cons x⟩
    · have hxa : os_insert acc x = acc ++ [x] := by
        unfold os_insert
        rw [if_neg hc]
      rw [hxa]
      obtain ⟨t, ht, hs⟩ := ih (acc ++ [x])
      refine ⟨x :: t, ?_, hs.cons₂ x⟩
      rw [ht, List.append_assoc]
      rfl

/-- Claim C1: for every step resolution over a Registry chain, the Matcher
evaluates the three tiers (strict, then unspecified, then liberal) at the
nearest Registry first; if any tier yields at least one match at a Registry,
that tier's full match set at that Registry is the candidate set, later tiers
at that Registry and every parent Registry are never consulted, and no
Definition held only in a parent is ever selected (every candidate belongs to
this Registry); only when all three tiers are empty at a Registry does
evaluation escalate to its parent and repeat independently. -/
theorem tier_priority_and_chain_walk (cfg : Config) (ctx : Option StepType) (s : Step)
    (defs : List Definition) (parent : Option Registry) :
    ((∃ d ∈ defs, strict_matcher ctx s d = true) →
        find_step_definition_matches (matchers_of cfg ctx s) (Registry.mk defs parent)
            = defs.filter (strict_matcher ctx s)
          ∧ ∀ d ∈ find_step_definition_matches (matchers_of cfg ctx s) (Registry.mk defs parent),
              d ∈ defs)
    ∧ ((∀ d ∈ defs, strict_matcher ctx s d = false) →
        (∃ d ∈ defs, unspecified_matcher ctx s d = true) →
        find_step_definition_matches (matchers_of cfg ctx s) (Registry.mk defs parent)
            = defs.filter (unspecified_matcher ctx s)
          ∧ ∀ d ∈ find_step_definition_matches (matchers_of cfg ctx s) (Registry.mk defs parent),
              d ∈ defs)
    ∧ ((∀ d ∈ defs, strict_matcher ctx s d = false) →
        (∀ d ∈ defs, unspecified_matcher ctx s d = false) →
        (∃ d ∈ defs, liberal_matcher cfg ctx s d = true) →
        find_step_definition_matches (matchers_of cfg ctx s) (Registry.mk defs parent)
            = defs.filter (liberal_matcher cfg ctx s)
          ∧ ∀ d ∈ find_step_definition_matches (matchers_of cfg ctx s) (Registry.mk defs parent),
              d ∈ defs)
    ∧ ((∀ d ∈ defs, strict_matcher ctx s d = false
          ∧ unspecified_matcher ctx s d = false ∧ liberal_matcher cfg ctx s d = false) →
        find_step_definition_matches (matchers_of cfg ctx s) (Registry.mk defs parent)
          = match parent with
            | some p => find_step_definition_matches (matchers_of cfg ctx s) p
            | none => []) := by
  refine ⟨?_, ?_, ?_, ?_⟩
  · intro hex
    have hrm : run_matchers defs (matchers_of cfg ctx s) = defs.filter (strict_matcher ctx s) :=
      run_matchers_cons_pos _ (filter_ne_nil_of_exists hex)
    have hne : run_matchers defs (matchers_of cfg ctx s) ≠ [] := by
      rw [hrm]
      exact filter_ne_nil_of_exists hex
    have hfind := find_matches_pos parent hne
    rw [hfind, hrm]
    exact ⟨rfl, fun d hd => (List.mem_filter.mp hd).1⟩
  · intro hall hex
    have hrm : run_matchers defs (matchers_of cfg ctx s)
        = defs.filter (unspecified_matcher ctx s) := by
      rw [show matchers_of cfg ctx s
            = strict_matcher ctx s :: [unspecified_matcher ctx s, liberal_matcher cfg ctx s]
          from rfl,
        run_matchers_cons_nil _ (filter_eq_nil_of_forall hall),
        run_matchers_cons_pos _ (filter_ne_nil_of_exists hex)]
    have hne : run_matchers defs (matchers_of cfg ctx s) ≠ [] := by
      rw [hrm]
      exact filter_ne_nil_of_exists hex
    have hfind := find_matches_pos parent hne
    rw [hfind, hrm]
    exact ⟨rfl, fun d hd => (List.mem_filter.mp hd).1⟩
  · intro hs hu hex
    have hrm : run_matchers defs (matchers_of cfg ctx s)
        = defs.filter (liberal_matcher cfg ctx s) := by
      rw [show matchers_of cfg ctx s
            = strict_matcher ctx s :: [unspecified_matcher ctx s, liberal_matcher cfg ctx s]
          from rfl,
        run_matchers_cons_nil _ (filter_eq_nil_of_forall hs),
        run_matchers_cons_nil _ (filter_eq_nil_of_forall hu),
        run_matchers_cons_pos _ (filter_ne_nil_of_exists hex)]
    have hne : run_matchers defs (matchers_of cfg ctx s) ≠ [] := by
      rw [hrm]
      exact filter_ne_nil_of_exists hex
    have hfind := find_matches_pos parent hne
    rw [hfind, hrm]
    exact ⟨rfl, fun d hd => (List.mem_filter.mp hd).1⟩
  · intro hall
    have hrm : run_matchers defs (matchers_of cfg ctx s) = [] := by
      rw [show matchers_of cfg ctx s
            = strict_matcher ctx s :: [unspecified_matcher ctx s, liberal_matcher cfg ctx s]
          from rfl,
        run_matchers_cons_nil _ (filter_eq_nil_of_forall (fun d hd => (hall d hd).1)),
        run_matchers_cons_nil _ (filter_eq_nil_of_forall (fun d hd => (hall d hd).2.1)),
        run_matchers_cons_nil _ (filter_eq_nil_of_forall (fun d hd => (hall d hd).2.2))]
      rfl
    exact find_matches_nil parent hrm

/-- Witness for C1: under active context `CONTEXT` on step text `foo`, a
strict hit at the child registry yields exactly the strict filter (the liberal
sibling and the parent are ignored); an unspecified hit yields the unspecified
filter; a liberal hit yields the liberal filter; and when nothing matches at
the child, resolution escalates and selects the parent's definition. -/
theorem tier_priority_and_chain_walk_witness :
    find_step_definition_matches (matchers_of cfgDefault (some StepType.context) stepFooCtx)
        (Registry.mk [dCtx, dLib] (some regParent))
      = [dCtx, dLib].filter (strict_matcher (some StepType.context) stepFooCtx)
    ∧ find_step_definition_matches (matchers_of cfgDefault (some StepType.context) stepFooCtx)
        (Registry.mk [dUnspec, dLib] (some regParent))
      = [dUnspec, dLib].filter (unspecified_matcher (some StepType.context) stepFooCtx)
    ∧ find_step_definition_matches (matchers_of cfgDefault (some StepType.context) stepFooCtx)
        (Registry.mk [dLib] (some regParent))
      = [dLib].filter (liberal_matcher cfgDefault (some StepType.context) stepFooCtx)
    ∧ find_step_definition_matches (matchers_of cfgDefault (some StepType.context) stepFooCtx)
        (Registry.mk [dNoMatch] (some regParent))
      = [dParent] :=
  ⟨((tier_priority_and_chain_walk cfgDefault (some StepType.context) stepFooCtx [dCtx, dLib]
      (some regParent)).1 (by decide)).1,
   ((tier_priority_and_chain_walk cfgDefault (some StepType.context) stepFooCtx [dUnspec, dLib]
      (some regParent)).2.1 (by decide) (by decide)).1,
   ((tier_priority_and_chain_walk cfgDefault (some StepType.context) stepFooCtx [dLib]
      (some regParent)).2.2.1 (by decide) (by decide) (by decide)).1,
   ((tier_priority_and_chain_walk cfgDefault (some StepType.context) stepFooCtx [dNoMatch]
      (some regParent)).2.2.2 (by decide)).trans rfl⟩

/-- Claim C2: on every Matcher invocation, if the current step's declared
category is `CONJUNCTION` or `UNKNOWN` and the context is already set, the
context is kept (then normalized from `CONJUNCTION` to `UNKNOWN`); otherwise
the context becomes the step's own category (likewise normalized).  For the
sequence Given A, And B, Then C, And D, step B resolves with active context
`CONTEXT` and step D with `OUTCOME`. -/
theorem step_type_context_propagation :
    (∀ (cfg : Config) (ctx : Option StepType) (s : Step) (reg : Registry),
      ((s.type = StepType.conjunction ∨ s.type = StepType.unknown) → ctx ≠ none →
          (Matcher.call cfg ctx s reg).1
            = (if ctx = some StepType.conjunction then some StepType.unknown else ctx))
      ∧ (¬ ((s.type = StepType.conjunction ∨ s.type = StepType.unknown) ∧ ctx ≠ none) →
          (Matcher.call cfg ctx s reg).1
            = (if s.type = StepType.conjunction then some StepType.unknown else some s.type)))
    ∧ (let cA := (Matcher.call cfgDefault none (stepOf StepType.context "A") regEmpty).1
       let cB := (Matcher.call cfgDefault cA (stepOf StepType.conjunction "B") regEmpty).1
       let cC := (Matcher.call cfgDefault cB (stepOf StepType.outcome "C") regEmpty).1
       let cD := (Matcher.call cfgDefault cC (stepOf StepType.conjunction "D") regEmpty).1
       cB = some StepType.context ∧ cD = some StepType.outcome) := by
  have hp : ∀ (c : Option StepType) (t : StepType),
      ((t = StepType.conjunction ∨ t = StepType.unknown) → c ≠ none →
        propagate_context c t
          = (if c = some StepType.conjunction then some StepType.unknown else c))
      ∧ (¬ ((t = StepType.conjunction ∨ t = StepType.unknown) ∧ c ≠ none) →
        propagate_context c t
          = (if t = StepType.conjunction then some StepType.unknown else some t)) := by
    decide
  exact ⟨fun cfg ctx s reg => ⟨(hp ctx s.type).1, (hp ctx s.type).2⟩, by decide⟩

/-- Witness for C2: a conjunction step keeps an established `CONTEXT`
context. -/
theorem step_type_context_propagation_witness :
    (((stepOf StepType.conjunction "B").type = StepType.conjunction
        ∨ (stepOf StepType.conjunction "B").type = StepType.unknown)
      ∧ some StepType.context ≠ (none : Option StepType))
    ∧ (Matcher.call cfgDefault (some StepType.context) (stepOf StepType.conjunction "B")
        regEmpty).1
      = (if some StepType.context = some StepType.conjunction then some StepType.unknown
         else some StepType.context) :=
  ⟨⟨Or.inl rfl, by decide⟩,
   (step_type_context_propagation.1 cfgDefault (some StepType.context)
      (stepOf StepType.conjunction "B") regEmpty).1 (Or.inl rfl) (by decide)⟩

/-- Counterexample to claim C3: two Definitions built by the decorator builder
from identical arguments (same handler, category, pattern, converters,
fixtures, liberal flag) but allocated as distinct objects are BOTH stored:
the registry ends with two entries, not one, because `attrs(eq=False)` makes
`set` deduplication use object identity rather than the attribute tuple. -/
theorem definition_structural_dedup_counterexample :
    (decorator_builder_definition 0 (some StepType.context) parserFoo none none none true none
        none 9).func
      = (decorator_builder_definition 1 (some StepType.context) parserFoo none none none true
        none none 9).func
    ∧ (decorator_builder_definition 0 (some StepType.context) parserFoo none none none true none
        none 9).type_
      = (decorator_builder_definition 1 (some StepType.context) parserFoo none none none true
        none none 9).type_
    ∧ (decorator_builder_definition 0 (some StepType.context) parserFoo none none none true none
        none 9).liberal
      = (decorator_builder_definition 1 (some StepType.context) parserFoo none none none true
        none none 9).liberal
    ∧ (decorator_builder_definition 0 (some StepType.context) parserFoo none none none true none
        none 9).parser
      = (decorator_builder_definition 1 (some StepType.context) parserFoo none none none true
        none none 9).parser
    ∧ (decorator_builder_definition 0 (some StepType.context) parserFoo none none none true none
        none 9).target_fixtures
      = (decorator_builder_definition 1 (some StepType.context) parserFoo none none none true
        none none 9).target_fixtures
    ∧ ¬ (((Registry.mk [] none).add
          (decorator_builder_definition 0 (some StepType.context) parserFoo none none none true
            none none 9)).add
          (decorator_builder_definition 1 (some StepType.context) parserFoo none none none true
            none none 9)).registry.length = 1
    ∧ (((Registry.mk [] none).add
          (decorator_builder_definition 0 (some StepType.context) parserFoo none none none true
            none none 9)).add
          (decorator_builder_definition 1 (some StepType.context) parserFoo none none none true
            none none 9)).registry.length = 2 :=
  ⟨rfl, rfl, rfl, rfl, rfl, by decide, rfl⟩

/-- Claim C3 (amended): Registry deduplication is by object identity, not by
the attribute tuple — adding a Definition whose identity is already present
leaves the registry unchanged (so registering the same Definition object twice
yields exactly one stored entry), while adding a Definition with a fresh
identity appends it even if it is structurally identical to a stored one. -/
theorem definition_identity_dedup (r : List Definition) (p : Option Registry) (d : Definition) :
    ((∃ x ∈ r, x.oid = d.oid) → (Registry.mk r p).add d = Registry.mk r p)
    ∧ ((∀ x ∈ r, x.oid ≠ d.oid) → ((Registry.mk r p).add d).registry = r ++ [d])
    ∧ (((Registry.mk [] none).add d).add d).registry.length = 1 := by
  refine ⟨?_, ?_, ?_⟩
  · intro hex
    have hany : r.any (fun x => x.oid == d.oid) = true := by
      rcases hex with ⟨x, hx, ho⟩
      exact List.any_eq_true.mpr ⟨x, hx, by simpa using ho⟩
    simp [Registry.add, hany]
  · intro hall
    have hany : r.any (fun x => x.oid == d.oid) = false :=
      List.any_eq_false.mpr (fun x hx => by simpa using hall x hx)
    simp [Registry.add, hany, Registry.registry]
  · simp [Registry.add, Registry.registry]

/-- Witness for C3 (amended): re-adding the stored object is a no-op, while a
structurally distinct object with a fresh identity is appended. -/
theorem definition_identity_dedup_witness :
    (Registry.mk [dCtx] none).add dCtx = Registry.mk [dCtx] none
    ∧ ((Registry.mk [dCtx] none).add dParent).registry = [dCtx] ++ [dParent] :=
  ⟨(definition_identity_dedup [dCtx] none dCtx).1 ⟨dCtx, List.mem_cons_self dCtx [], rfl⟩,
   (definition_identity_dedup [dCtx] none dParent).2.1 (by decide)⟩

/-- Claim C4 is contradicted by the code: the category-agnostic `step`
decorator passes `StepType.UNSPECIFIED if liberal else StepType.UNKNOWN`, so
with NO liberal flag (`liberal=None`, falsy) the Definition's declared
category is `UNKNOWN`, it does NOT satisfy tier 2 under context `CONTEXT`,
and resolution of a matching step text fails under the default configuration;
an explicit `liberal=True` instead yields the `UNSPECIFIED` category that
always satisfies tier 2 — the reverse of the claimed (and documented:
"Liberal step decorator which could be used with any keyword") behaviour. -/
theorem step_decorator_category_divergence :
    step_decorator_type none = StepType.unknown
    ∧ step_decorator_type (some false) = StepType.unknown
    ∧ step_decorator_type (some true) = StepType.unspecified
    ∧ unspecified_matcher (some StepType.context) (stepOf StepType.context "foo")
        (step_decorator_definition 0 parserFoo none 8) = false
    ∧ (Matcher.call cfgDefault none (stepOf StepType.context "foo")
        (Registry.mk [step_decorator_definition 0 parserFoo none 8] none)).2.2
        = CallOutcome.matchNotFound
    ∧ unspecified_matcher (some StepType.context) (stepOf StepType.context "foo")
        (step_decorator_definition 1 parserFoo (some true) 8) = true :=
  ⟨rfl, rfl, rfl, rfl, rfl, rfl⟩

/-- Claim C5: a Definition matches at tier 3 (liberal) if and only if it does
not satisfy tier 2, its effective liberal flag is true (the Definition's own
flag when set, else the command-line toggle when set, else the ini option),
its declared category differs from the active context, and its pattern matches
the step text; moreover, with a single `ACTION` liberal Definition over `foo`
and active context `CONTEXT`, tiers 1 and 2 are empty and tier 3 selects it. -/
theorem liberal_matcher_characterization :
    (∀ (cfg : Config) (ctx : Option StepType) (s : Step) (d : Definition),
      liberal_matcher cfg ctx s d = true ↔
        (¬ unspecified_matcher ctx s d = true
          ∧ (d.liberal = some true
             ∨ (d.liberal = none
                ∧ (cfg.option_liberal_steps = some true
                   ∨ (cfg.option_liberal_steps = none ∧ cfg.ini_liberal_steps = true))))
          ∧ d.type_ ≠ ctx
          ∧ d.parser.is_matching s.text = true))
    ∧ ([defActionFoo].filter (strict_matcher (some StepType.context) stepFooCtx) = []
        ∧ [defActionFoo].filter (unspecified_matcher (some StepType.context) stepFooCtx) = []
        ∧ (Matcher.call cfgIniTrue none stepFooCtx regFoo).2.2
            = CallOutcome.found defActionFoo false) := by
  constructor
  · intro cfg ctx s d
    simp only [liberal_matcher, Bool.and_eq_true, Bool.not_eq_true', decide_eq_true_eq,
      is_lib_iff, Bool.not_eq_true]
    tauto
  · exact ⟨rfl, rfl, rfl⟩

/-- Witness for C5: the liberal tier accepts the `ACTION` Definition with its
own flag set under active context `CONTEXT`. -/
theorem liberal_matcher_characterization_witness :
    liberal_matcher cfgIniTrue (some StepType.context) stepFooCtx defActionFoo = true :=
  (liberal_matcher_characterization.1 cfgIniTrue (some StepType.context) stepFooCtx
      defActionFoo).mpr ⟨by decide, Or.inl rfl, by decide, by decide⟩

/-- Claim C6: for every Matcher invocation, an empty final candidate set
raises the distinct not-found error; a singleton candidate set returns its
member with no warning; a candidate set with more than one member raises the
ambiguity warning and returns the first element. -/
theorem resolution_outcome_cases (cfg : Config) (ctx : Option StepType) (s : Step)
    (reg : Registry) :
    (find_step_definition_matches (matchers_of cfg (propagate_context ctx s.type) s) reg = []
        ↔ (Matcher.call cfg ctx s reg).2.2 = CallOutcome.matchNotFound)
    ∧ (∀ d,
        find_step_definition_matches (matchers_of cfg (propagate_context ctx s.type) s) reg
          = [d] →
        (Matcher.call cfg ctx s reg).2.2 = CallOutcome.found d false)
    ∧ (∀ d rest,
        find_step_definition_matches (matchers_of cfg (propagate_context ctx s.type) s) reg
          = d :: rest →
        rest ≠ [] →
        (Matcher.call cfg ctx s reg).2.2 = CallOutcome.found d true) := by
  have hcall : (Matcher.call cfg ctx s reg).2.2
      = (match
           find_step_definition_matches (matchers_of cfg (propagate_context ctx s.type) s) reg
         with
         | [] => CallOutcome.matchNotFound
         | d :: rest => CallOutcome.found d (!rest.isEmpty)) := rfl
  refine ⟨⟨fun h => by rw [hcall, h], fun h => ?_⟩, fun d hd => by rw [hcall, hd]; rfl, ?_⟩
  · cases hL : find_step_definition_matches
        (matchers_of cfg (propagate_context ctx s.type) s) reg with
    | nil => rfl
    | cons d rest =>
      rw [hcall, hL] at h
      exact absurd h (by simp)
  · intro d rest hd hrest
    cases rest with
    | nil => exact absurd rfl hrest
    | cons a t =>
      rw [hcall, hd]
      rfl

/-- Witness for C6: an empty chain raises not-found; a unique liberal match is
returned without warning; two strict matches return the first with the
ambiguity warning raised. -/
theorem resolution_outcome_cases_witness :
    (Matcher.call cfgDefault none (stepOf StepType.context "missing") regEmpty).2.2
      = CallOutcome.matchNotFound
    ∧ (Matcher.call cfgIniTrue none stepFooCtx regFoo).2.2
      = CallOutcome.found defActionFoo false
    ∧ (Matcher.call cfgDefault none stepFooCtx regTwo).2.2 = CallOutcome.found dCtx true :=
  ⟨(resolution_outcome_cases cfgDefault none (stepOf StepType.context "missing")
      regEmpty).1.mp rfl,
   (resolution_outcome_cases cfgIniTrue none stepFooCtx regFoo).2.1 defActionFoo rfl,
   (resolution_outcome_cases cfgDefault none stepFooCtx regTwo).2.2 dCtx [dCtx2] rfl
     (List.cons_ne_nil dCtx2 [])⟩

/-- Claim C7: `get_parameters` returns the parsed arguments (empty when the
matcher reports none) with each parsed value passed through the converter
registered for its name (identity if none), layered over the default
arguments: a key parsed by the matcher maps to its converted parsed value, and
a key not parsed maps to its default value, unconverted. -/
theorem get_parameters_merge (d : Definition) (s : Step)
    (h : (((d.parser.parse_arguments s.name).getD []).map Prod.fst).Nodup) (k : String) :
    dict_get (d.get_parameters s) k
      = match dict_get ((d.parser.parse_arguments s.name).getD []) k with
        | some v => some (converters_get d.converters k v)
        | none => dict_get d.param_defaults k := by
  unfold Definition.get_parameters
  rw [dict_get_merge _ _ (by
      rw [List.map_map]
      exact h), dict_get_map_conv (fun a v => converters_get d.converters a v)]
  cases hm : dict_get ((d.parser.parse_arguments s.name).getD []) k with
  | some v => rfl
  | none => rfl

/-- Witness for C7: with parsed arguments `a=1, b=2`, a converter on `a` and
defaults `b=0, c=3`, the key `a` maps to the converted parsed value and the
key `c` passes through from the defaults unconverted. -/
theorem get_parameters_merge_witness :
    (((defConv.parser.parse_arguments stepBaz.name).getD []).map Prod.fst).Nodup
    ∧ dict_get (defConv.get_parameters stepBaz) "a" = some "1!"
    ∧ dict_get (defConv.get_parameters stepBaz) "c" = some "3" :=
  ⟨by decide,
   (get_parameters_merge defConv stepBaz (by decide) "a").trans rfl,
   (get_parameters_merge defConv stepBaz (by decide) "c").trans rfl⟩

/-- Claim C8: the registration builder warns exactly once when both the single
target fixture and the target-fixture list are given (and never otherwise),
and the effective target-fixture list is the deduplicated, order-preserving
concatenation of the single name followed by the list: it has no duplicates,
contains exactly the given names, is a subsequence of the concatenation, puts
the single name first, and on `target_fixture="X"`,
`target_fixtures=["Y","X"]` equals `["X","Y"]`. -/
theorem target_fixture_merge_law :
    (∀ (x : String) (tfs : List String), builder_warning_count (some x) (some tfs) = 1)
    ∧ (∀ x : String, builder_warning_count (some x) none = 0)
    ∧ (∀ tfs : List String, builder_warning_count none (some tfs) = 0)
    ∧ builder_warning_count none none = 0
    ∧ (∀ (tf : Option String) (tfs : Option (List String)),
        (effective_target_fixtures tf tfs).Nodup)
    ∧ (∀ (tf : Option String) (tfs : Option (List String)) (y : String),
        y ∈ effective_target_fixtures tf tfs
          ↔ y ∈ (match tf with | some x => [x] | none => [])
              ++ (match tfs with | some l => l | none => []))
    ∧ (∀ (tf : Option String) (tfs : Option (List String)),
        (effective_target_fixtures tf tfs).Sublist
          ((match tf with | some x => [x] | none => [])
            ++ (match tfs with | some l => l | none => [])))
    ∧ (∀ (x : String) (tfs : Option (List String)),
        ∃ t, effective_target_fixtures (some x) tfs = x :: t)
    ∧ effective_target_fixtures (some "X") (some ["Y", "X"]) = ["X", "Y"] := by
  refine ⟨fun _ _ => rfl, fun _ => rfl, fun _ => rfl, rfl, ?_, ?_, ?_, ?_, by decide⟩
  · intro tf tfs
    exact os_fold_nodup _ [] List.nodup_nil
  · intro tf tfs y
    unfold effective_target_fixtures ordered_set
    rw [os_fold_mem]
    simp
  · intro tf tfs
    obtain ⟨t, ht, hs⟩ := os_fold_split
      ((match tf with | some x => [x] | none => [])
        ++ (match tfs with | some l => l | none => [])) []
    unfold effective_target_fixtures ordered_set
    rw [ht]
    simpa using hs
  · intro x tfs
    unfold effective_target_fixtures ordered_set
    obtain ⟨t, ht, -⟩ := os_fold_split (match tfs with | some l => l | none => []) [x]
    refine ⟨t, ?_⟩
    have hstep : ((match some x with | some x => [x] | none => [])
        ++ (match tfs with | some l => l | none => [])).foldl os_insert []
        = (match tfs with | some l => l | none => []).foldl os_insert [x] := rfl
    rw [hstep, ht]
    rfl

/-- Witness for C8: the single name `X` is in the merged list for
`target_fixture="X"`, `target_fixtures=["Y","X"]`. -/
theorem target_fixture_merge_law_witness :
    "X" ∈ effective_target_fixtures (some "X") (some ["Y", "X"]) :=
  (target_fixture_merge_law.2.2.2.2.2.1 (some "X") (some ["Y", "X"]) "X").mpr (by decide)

/-- Claim C9: after every Matcher invocation (match found or not) the
`step_type_context` is never `CONJUNCTION`, and once set it is never reset to
unset by a later invocation. -/
theorem step_type_context_invariant (cfg : Config) (ctx : Option StepType) (s : Step)
    (reg : Registry) :
    (Matcher.call cfg ctx s reg).1 ≠ some StepType.conjunction
    ∧ (ctx ≠ none → (Matcher.call cfg ctx s reg).1 ≠ none) := by
  have h : ∀ (c : Option StepType) (t : StepType),
      propagate_context c t ≠ some StepType.conjunction
      ∧ (c ≠ none → propagate_context c t ≠ none) := by decide
  exact ⟨(h ctx s.type).1, (h ctx s.type).2⟩

/-- Witness for C9: with an established `CONTEXT` context, a conjunction step
leaves the context set and not `CONJUNCTION`. -/
theorem step_type_context_invariant_witness :
    (some StepType.context ≠ (none : Option StepType))
    ∧ (Matcher.call cfgDefault (some StepType.context) (stepOf StepType.conjunction "B")
        regEmpty).1 ≠ none :=
  ⟨by decide,
   (step_type_context_invariant cfgDefault (some StepType.context)
      (stepOf StepType.conjunction "B") regEmpty).2 (by decide)⟩

/-- Claim C10: when resolution fails with the not-found error, the registry
chain is returned unmodified (resolution only reads it) but the Matcher's
`step_type_context` has already been updated by the propagation rule before
the error is raised; concretely, a failing first invocation still moves the
context from unset to `CONTEXT`. -/
theorem failure_updates_matcher_state_only :
    (∀ (cfg : Config) (ctx : Option StepType) (s : Step) (reg : Registry),
        (Matcher.call cfg ctx s reg).2.2 = CallOutcome.matchNotFound →
          (Matcher.call cfg ctx s reg).2.1 = reg
          ∧ (Matcher.call cfg ctx s reg).1 = propagate_context ctx s.type)
    ∧ ((Matcher.call cfgDefault none (stepOf StepType.context "missing") regEmpty).2.2
          = CallOutcome.matchNotFound
        ∧ (Matcher.call cfgDefault none (stepOf StepType.context "missing") regEmpty).1
          = some StepType.context
        ∧ some StepType.context ≠ (none : Option StepType)) :=
  ⟨fun _ _ _ _ _ => ⟨rfl, rfl⟩, ⟨rfl, rfl, by decide⟩⟩

/-- Witness for C10: at the concrete failing invocation, the registry is
unchanged and the context equals the propagated value. -/
theorem failure_updates_matcher_state_only_witness :
    (Matcher.call cfgDefault none (stepOf StepType.context "missing") regEmpty).2.1 = regEmpty
    ∧ (Matcher.call cfgDefault none (stepOf StepType.context "missing") regEmpty).1
      = propagate_context none (stepOf StepType.context "missing").type :=
  failure_updates_matcher_state_only.1 cfgDefault none (stepOf StepType.context "missing")
    regEmpty rfl
